import Mathlib

/-!
Verification of the lisTUI download scheduler and playback orchestration
subsystem against its specification.

The definitions below are a shallow embedding of the Rust sources:
* `src/listui_lib/src/downloader.rs` — the `Downloader` (enqueue registry,
  priority token, semaphore-bounded worker pool, spawned download tasks);
* `src/listui/src/widgets/player.rs` — the end-of-track timer
  (`set_timer` / `stop_timer`);
* `src/listui/src/widgets/list.rs` — `ListWidget::toggle_shuffle`;
* `src/listui/src/app.rs` — `ListuiApp::play_previous`.

Machine integers (`u64` / `usize`, both 64-bit here) are modelled as `Nat`
with explicit wrap-around `% 2^64` where Rust release builds would wrap, and
with `Option` (`none` = panic) where Rust checked arithmetic would panic.
The concurrent behaviour of the spawned download tasks is modelled as a
labelled transition system whose atomic steps are exactly the critical
sections and suspension points of the Rust code.
-/

namespace ListTUI

/-! ## Downloader data model (`src/listui_lib/src/downloader.rs`) -/

/-- Embeds `enum DownloadResult { Completed(String, PathBuf), Failed(String) }`. -/
inductive DownloadResult where
  | completed (id : String) (path : String)
  | failed (id : String)
deriving DecidableEq, Repr

/-- The source id carried by a result (the `match` in
`check_for_completed_download` binding `downloaded_id`). -/
def DownloadResult.sourceId : DownloadResult → String
  | .completed s _ => s
  | .failed s => s

/-- Where a spawned download task is in its body:
* `waiting`   — before/at `sem.acquire().await` (holds no permit);
* `holding`   — permit acquired, about to run the priority-gate critical
  section (`mtx.lock().await`);
* `ready`     — broke out of the loop holding a permit, subprocess not yet
  spawned;
* `running`   — `yt-dlp` subprocess spawned, awaiting `child.wait()`,
  permit still held;
* `reporting r` — subprocess exited and `drop(permit)` has run; result `r`
  not yet sent on the channel. -/
inductive Phase where
  | waiting
  | holding
  | ready
  | running
  | reporting (r : DownloadResult)
deriving DecidableEq, Repr

/-- Returns `true` exactly for the phases during which the task owns a semaphore
permit (from `sem.acquire()` until the `drop(permit)` after `child.wait()`,
or the early release in the retry branch / panic unwind). -/
def Phase.holdsPermit : Phase → Bool
  | .holding => true
  | .ready => true
  | .running => true
  | _ => false

def Phase.isRunning : Phase → Bool
  | .running => true
  | _ => false

/-- One spawned download task (the async block in `Downloader::download_url`),
with the `id` and `file_path` it captured. -/
structure Task where
  id : String
  path : String
  phase : Phase
deriving DecidableEq, Repr

def setPhase (t : Task) (ph : Phase) : Task :=
  { t with phase := ph }

/-- The shared state of a `Downloader` together with its spawned tasks:
* `capacity`  — `max_downloads` (semaphore size and channel bound);
* `avail`     — free semaphore permits;
* `token`     — `last_download` (the priority token);
* `downloads` — the `HashSet` of enqueued ids (no duplicates are ever
  inserted, so a list suffices);
* `tasks`     — the live spawned tasks;
* `channel`   — results sent but not yet received (`mpsc` buffer). -/
structure DLState where
  capacity : Nat
  avail : Nat
  token : Option String
  downloads : List String
  tasks : List Task
  channel : List DownloadResult
deriving DecidableEq, Repr

/-- Embeds `Downloader::new(max_downloads)`: fresh semaphore with `max_downloads`
permits, empty registry, no priority token, empty channel. -/
def initState (n : Nat) : DLState :=
  { capacity := n
    avail := n
    token := none
    downloads := []
    tasks := []
    channel := [] }

/-- Embeds `Downloader::download_url(yt_id, file_path)`, synchronous part: under the
`downloads` borrow and the `last_download` lock, it first does
`guard.replace(String::from(yt_id))`, then returns early if
`downloads.contains(yt_id)`, else inserts the id and spawns the task. -/
def downloadUrl (s : DLState) (ytId : String) (filePath : String) : DLState :=
  if ytId ∈ s.downloads then
    { s with token := some ytId }
  else
    { s with token := some ytId
             downloads := ytId :: s.downloads
             tasks := s.tasks ++ [⟨ytId, filePath, Phase.waiting⟩] }

/-- Embeds `Downloader::check_for_completed_download`: `try_recv` on the channel;
on `Err` return `None` with no state change; on `Ok(d)` remove the id of
the result from `downloads` and `take()` the token iff it equals that id. -/
def checkForCompleted (s : DLState) : Option DownloadResult × DLState :=
  match s.channel with
  | [] => (none, s)
  | r :: rest =>
      (some r,
        { s with
            channel := rest
            downloads := s.downloads.erase r.sourceId
            token := if s.token = some r.sourceId then none else s.token })

/-- The priority-gate critical section of the task loop (lines 115–122 of
`downloader.rs`), as a pure function of the token: returns whether the task
breaks out of the loop, and the token afterwards.
`none` token: break, token untouched. Token equal to own id: `take()` it and
break. Otherwise: keep waiting (token untouched). -/
def tryClaim (token : Option String) (id : String) : Bool × Option String :=
  match token with
  | none => (true, none)
  | some t => if t = id then (true, none) else (false, some t)

/-- Embeds `if exit.is_ok() && exit.unwrap().success()` → `Completed(id, path)`,
else `Failed(id)`. `exit : Except Unit Bool` models `io::Result<ExitStatus>`
collapsed to the only datum consulted, `.success()`. -/
def resultOf (id path : String) (exit : Except Unit Bool) : DownloadResult :=
  match exit with
  | .ok true => .completed id path
  | .ok false => .failed id
  | .error _ => .failed id

/-- What a download task delivers on the result channel as a function of its
subprocess outcome.  `spawn = none` models `Command::spawn` failing: the code
calls `.spawn().unwrap()`, so the task panics and sends nothing (`none`).
`spawn = some exit` models a successful spawn with wait outcome `exit`. -/
def taskReport (id path : String) (spawn : Option (Except Unit Bool)) :
    Option DownloadResult :=
  match spawn with
  | none => none
  | some exit => some (resultOf id path exit)

/-! ## End-of-track timer (`src/listui/src/widgets/player.rs`) -/

/-- Messages to the UI inbox (`utils::Message`); the timer body sends
exactly `SongFinished`. -/
inductive Message where
  | SongFinished
deriving DecidableEq, Repr

/-- 64-bit modulus for `u64` / `usize` arithmetic. -/
def U64MOD : Nat := 2 ^ 64

/-- Wrapping `u64` subtraction (Rust release semantics), for `b ≤ 2^64`. -/
def wsub64 (a b : Nat) : Nat := (a + U64MOD - b) % U64MOD

/-- Wrapping `u64` addition. -/
def add64 (a b : Nat) : Nat := (a + b) % U64MOD

/-- The timer bookkeeping slice of `PlayerData`: `end_timer` holds the live
total delay in seconds of the live timer (the datum the armed task was
built from);
`aborted` records every handle that was `abort()`ed, newest first. -/
structure TimerState where
  endTimer : Option Nat
  aborted : List Nat
deriving DecidableEq, Repr

/-- Embeds `stop_timer`: `if let Some(timer) = data.end_timer.take() { timer.abort() }`. -/
def stopTimer (t : TimerState) : TimerState :=
  match t.endTimer with
  | none => t
  | some h => { endTimer := none, aborted := h :: t.aborted }

/-- Embeds `let seconds = duration - data.player.get_progress().unwrap_or(duration) + 1`. -/
def timerSeconds (duration : Nat) (progress : Option Nat) : Nat :=
  add64 (wsub64 duration (progress.getD duration)) 1

/-- The delay the spawned timer actually sleeps:
`sleep(Duration::from_secs(seconds + 1))`. -/
def timerDelay (duration : Nat) (progress : Option Nat) : Nat :=
  add64 (timerSeconds duration progress) 1

/-- Embeds `set_timer`: first `stop_timer(data)` (cancelling any previous timer),
then arm a fresh timer with the computed delay. -/
def setTimer (duration : Nat) (progress : Option Nat) (t : TimerState) :
    TimerState :=
  let t1 := stopTimer t
  { t1 with endTimer := some (timerDelay duration progress) }

/-- The body of the spawned timer task after its sleep: a single
`sender.send(utils::Message::SongFinished)`. -/
def timerMessages : List Message := [Message.SongFinished]

/-! ## List widget (`src/listui/src/widgets/list.rs`) -/

/-- Embeds `ListWidget<T>` restricted to the fields `toggle_shuffle` and the
traversal order touch (`title` as a list of `Char`, since `String::pop`
removes one `char`). -/
structure ListWidget (α : Type) where
  title : List Char
  sel : Option Nat
  items : List α
  shuffled : Bool
  orderedItems : List Nat
deriving Repr

/-- Embeds `ListWidget::with_items`: `ordered_items: (0..items.len()).collect()`. -/
def withItems {α : Type} (title : List Char) (items : List α) : ListWidget α :=
  { title := title
    sel := none
    items := items
    shuffled := false
    orderedItems := List.range items.length }

/-- The four characters `" ⤨  "` pushed by `toggle_shuffle`. -/
def shuffleMarker : List Char := [' ', '⤨', ' ', ' ']

/-- Embeds `ListWidget::toggle_shuffle`. Turning shuffle *off* rebuilds
`ordered_items` as `(0..items.len()).collect()` and pops four characters off
the title; turning it *on* applies the random permutation (abstracted as the
oracle `shuf`, since `thread_rng` is nondeterministic) and appends the
marker. Both reset the cursor (`ListState::default()`). -/
def toggleShuffle {α : Type} (shuf : List Nat → List Nat) (w : ListWidget α) :
    ListWidget α :=
  if w.shuffled then
    { w with
        orderedItems := List.range w.items.length
        sel := none
        shuffled := false
        title := w.title.dropLast.dropLast.dropLast.dropLast }
  else
    { w with
        orderedItems := shuf w.orderedItems
        sel := none
        shuffled := true
        title := w.title ++ shuffleMarker }

/-- Embeds `ListWidget::get_ind(ind)`: `&self.items[self.ordered_items[ind]]`,
with out-of-bounds indexing made explicit as `none`. -/
def getInd {α : Type} (w : ListWidget α) (ind : Nat) : Option α :=
  (w.orderedItems.get? ind).bind fun i => w.items.get? i

/-! ## `play_previous` (`src/listui/src/app.rs`) -/

/-- Embeds the `ListuiApp::play_previous` index computation under Rust *debug* (checked)
semantics: `Some(ind) => (ind - 1) % total_len`, `None => 0`.
`none` models a panic: `ind - 1` overflows when `ind = 0`, and `% 0` divides
by zero. -/
def playPreviousIndChecked (cur : Option Nat) (len : Nat) : Option Nat :=
  match cur with
  | none => some 0
  | some ind => if ind = 0 ∨ len = 0 then none else some ((ind - 1) % len)

/-- The same computation under Rust *release* (wrapping) semantics on a
64-bit `usize`: `ind - 1` wraps to `2^64 - 1` when `ind = 0`. `% 0` still
panics (`none`). -/
def playPreviousIndWrapping (cur : Option Nat) (len : Nat) : Option Nat :=
  match cur with
  | none => some 0
  | some ind => if len = 0 then none else some (wsub64 ind 1 % len)

/-! ## Labelled transition system for the downloader

Each label is one atomic step of the Rust code: the two synchronous entry
points (`request` = `download_url`, `consume` = `check_for_completed_download`)
and the suspension-point-delimited slices of the spawned task body. -/

inductive Label where
  | request (ytId filePath : String)
  | consume
  | acquire (id : String)
  | gatePass (id : String)
  | gateFail (id : String)
  | spawn (id : String) (ok : Bool)
  | exits (id : String) (exit : Except Unit Bool)
  | report (id : String)
deriving Repr

/-- The small-step semantics. Task-local steps pick one task out of the task
list (`s.tasks = pre ++ t :: post`) and rewrite its phase in place. -/
inductive LStep : Label → DLState → DLState → Prop where
  /-- The main thread calls `download_url`. -/
  | request (s : DLState) (ytId filePath : String) :
      LStep (.request ytId filePath) s (downloadUrl s ytId filePath)
  /-- The main thread calls `check_for_completed_download` and a result is
  pending (`try_recv` returns `Ok`). -/
  | consume (s : DLState) (r : DownloadResult) (rest : List DownloadResult)
      (hch : s.channel = r :: rest) :
      LStep .consume s (checkForCompleted s).2
  /-- Step for `sem.acquire().await` returning: needs a free permit. -/
  | acquire (s : DLState) (pre post : List Task) (t : Task)
      (htasks : s.tasks = pre ++ t :: post)
      (hph : t.phase = .waiting) (havail : 0 < s.avail) :
      LStep (.acquire t.id) s
        { s with avail := s.avail - 1
                 tasks := pre ++ setPhase t .holding :: post }
  /-- The gate critical section succeeds (`tryClaim` breaks the loop):
  token absent, or equal to the id of the task and then taken. Either way the
  token is `none` afterwards. -/
  | gatePass (s : DLState) (pre post : List Task) (t : Task)
      (htasks : s.tasks = pre ++ t :: post)
      (hph : t.phase = .holding)
      (hgate : (tryClaim s.token t.id).1 = true) :
      LStep (.gatePass t.id) s
        { s with token := (tryClaim s.token t.id).2
                 tasks := pre ++ setPhase t .ready :: post }
  /-- The gate critical section fails (someone else holds priority):
  `drop(permit)` returns the permit and the task loops back to `acquire`. -/
  | gateFail (s : DLState) (pre post : List Task) (t : Task) (u : String)
      (htasks : s.tasks = pre ++ t :: post)
      (hph : t.phase = .holding)
      (hgate : s.token = some u) (hne : u ≠ t.id) :
      LStep (.gateFail t.id) s
        { s with avail := s.avail + 1
                 tasks := pre ++ setPhase t .waiting :: post }
  /-- Step for `Command::spawn` succeeding: the external process starts. -/
  | spawnOk (s : DLState) (pre post : List Task) (t : Task)
      (htasks : s.tasks = pre ++ t :: post)
      (hph : t.phase = .ready) :
      LStep (.spawn t.id true) s
        { s with tasks := pre ++ setPhase t .running :: post }
  /-- Step for `Command::spawn` failing: `.unwrap()` panics the task; the unwind drops
  the permit, and nothing is ever sent on the channel
  (`taskReport id path none = none`). -/
  | spawnFail (s : DLState) (pre post : List Task) (t : Task)
      (htasks : s.tasks = pre ++ t :: post)
      (hph : t.phase = .ready) :
      LStep (.spawn t.id false) s
        { s with avail := s.avail + 1
                 tasks := pre ++ post }
  /-- Step for `child.wait().await` resolving; `drop(permit)` runs *before* the
  result is sent. -/
  | exits (s : DLState) (pre post : List Task) (t : Task)
      (exit : Except Unit Bool)
      (htasks : s.tasks = pre ++ t :: post)
      (hph : t.phase = .running) :
      LStep (.exits t.id exit) s
        { s with avail := s.avail + 1
                 tasks := pre ++ setPhase t (.reporting (resultOf t.id t.path exit)) :: post }
  /-- Step for `sender.send(..).await` completing (the bounded channel has room)
  and the task finishes. -/
  | report (s : DLState) (pre post : List Task) (t : Task) (r : DownloadResult)
      (htasks : s.tasks = pre ++ t :: post)
      (hph : t.phase = .reporting r)
      (hcap : s.channel.length < s.capacity) :
      LStep (.report t.id) s
        { s with tasks := pre ++ post
                 channel := s.channel ++ [r] }

/-- A step with some label. -/
def Step (s s' : DLState) : Prop := ∃ l, LStep l s s'

/-- States reachable from a fresh `Downloader::new(n)`. -/
inductive Reachable (n : Nat) : DLState → Prop where
  | init : Reachable n (initState n)
  | step {s s' : DLState} : Reachable n s → Step s s' → Reachable n s'

/-- A finite execution with its list of labels. -/
inductive Exec : DLState → List Label → DLState → Prop where
  | nil (s : DLState) : Exec s [] s
  | cons {s s' s'' : DLState} {l : Label} {tr : List Label} :
      LStep l s s' → Exec s' tr s'' → Exec s (l :: tr) s''

/-! ### Counting helpers -/

/-- Number of tasks in a list that currently own a permit. -/
def heldL (l : List Task) : Nat :=
  l.countP fun t => t.phase.holdsPermit

/-- Number of tasks of a state that currently own a permit. -/
def heldCount (s : DLState) : Nat := heldL s.tasks

/-- Number of tasks whose subprocess is currently running. -/
def runningL (l : List Task) : Nat :=
  l.countP fun t => t.phase.isRunning

def runningCount (s : DLState) : Nat := runningL s.tasks

/-- Tasks of a given source id. -/
def tasksWith (x : String) (l : List Task) : Nat :=
  l.countP fun t => t.id == x

/-- Unconsumed channel results of a given source id. -/
def resultsWith (x : String) (c : List DownloadResult) : Nat :=
  c.countP fun r => r.sourceId == x

/-- Live work attributable to a source id: spawned tasks plus unconsumed
results. -/
def liveCount (x : String) (s : DLState) : Nat :=
  tasksWith x s.tasks + resultsWith x s.channel

/-- The inductive invariant of the downloader transition system:
permit accounting (`avail` plus permits owned by tasks is the capacity),
at most one live task-or-result per source id, live ids are registered in
`downloads`, and a task in its reporting phase reports its own id. -/
def Inv (n : Nat) (s : DLState) : Prop :=
  s.capacity = n ∧
  s.avail + heldCount s = n ∧
  (∀ x, liveCount x s ≤ 1) ∧
  (∀ x, 1 ≤ liveCount x s → x ∈ s.downloads) ∧
  (∀ t ∈ s.tasks, ∀ r, t.phase = Phase.reporting r → r.sourceId = t.id)

/-! ## Priority-scenario machinery (most-recently-requested policy) -/

/-- Labels that are pure task/scheduler activity — everything except the two
main-thread entry points (`download_url` requests and
`check_for_completed_download` consumption). -/
def schedOnly : Label → Bool
  | .request _ _ => false
  | .consume => false
  | _ => true

/-- The id of the first spawn attempt in a trace, if any. -/
def firstSpawn : List Label → Option String
  | [] => none
  | .spawn x _ :: _ => some x
  | _ :: rest => firstSpawn rest

/-- The state after `download_url(a)` then `download_url(b)` (with `a ≠ b`)
on a fresh `Downloader::new(1)`: pool capacity 1, both tasks still waiting
for the permit, priority token `b`. -/
def scenarioState (a b pa pb : String) : DLState :=
  { capacity := 1
    avail := 1
    token := some b
    downloads := [b, a]
    tasks := [⟨a, pa, Phase.waiting⟩, ⟨b, pb, Phase.waiting⟩]
    channel := [] }

/-- The shapes the two-task capacity-1 scenario can be in while `b` has not
yet attempted to spawn its subprocess: both waiting; `a` probing (it must
fail the gate); `b` probing; `b` past the gate. -/
def Kstate (a b pa pb : String) (s : DLState) : Prop :=
  s = scenarioState a b pa pb
  ∨ s = { scenarioState a b pa pb with
            avail := 0
            tasks := [⟨a, pa, Phase.holding⟩, ⟨b, pb, Phase.waiting⟩] }
  ∨ s = { scenarioState a b pa pb with
            avail := 0
            tasks := [⟨a, pa, Phase.waiting⟩, ⟨b, pb, Phase.holding⟩] }
  ∨ s = { scenarioState a b pa pb with
            avail := 0
            token := none
            tasks := [⟨a, pa, Phase.waiting⟩, ⟨b, pb, Phase.ready⟩] }

/-- The first half of claim C3 exactly as stated: while the priority token
holds `b`, no task with a different id ever starts its subprocess. -/
def PriorityBlocksSpawn : Prop :=
  ∀ (n : Nat) (b : String) (s s' : DLState) (i : String) (ok : Bool),
    Reachable n s → s.token = some b → LStep (.spawn i ok) s s' → i = b

/-! ### Concrete run refuting `PriorityBlocksSpawn`:
request `a`; `a` acquires the permit and passes the gate (token was `a`,
now cleared); request `b` (token becomes `b`); `a` spawns its subprocess
while the token is still `b`. -/

def cexS1 : DLState :=
  { capacity := 1, avail := 1, token := some "a", downloads := ["a"]
    tasks := [⟨"a", "p", Phase.waiting⟩], channel := [] }

def cexS2 : DLState :=
  { capacity := 1, avail := 0, token := some "a", downloads := ["a"]
    tasks := [⟨"a", "p", Phase.holding⟩], channel := [] }

def cexS3 : DLState :=
  { capacity := 1, avail := 0, token := none, downloads := ["a"]
    tasks := [⟨"a", "p", Phase.ready⟩], channel := [] }

def cexS4 : DLState :=
  { capacity := 1, avail := 0, token := some "b", downloads := ["b", "a"]
    tasks := [⟨"a", "p", Phase.ready⟩, ⟨"b", "q", Phase.waiting⟩], channel := [] }

def cexS5 : DLState :=
  { capacity := 1, avail := 0, token := some "b", downloads := ["b", "a"]
    tasks := [⟨"a", "p", Phase.running⟩, ⟨"b", "q", Phase.waiting⟩], channel := [] }

/-- A downloader state with one unconsumed `Failed("a")` result pending. -/
def sampleConsume : DLState :=
  { capacity := 1, avail := 1, token := some "a", downloads := ["a"]
    tasks := [], channel := [DownloadResult.failed "a"] }

/-! ### The reachability invariant -/

@[simp] theorem holdsPermit_waiting : Phase.waiting.holdsPermit = false := rfl

@[simp] theorem holdsPermit_holding : Phase.holding.holdsPermit = true := rfl

@[simp] theorem holdsPermit_ready : Phase.ready.holdsPermit = true := rfl

@[simp] theorem holdsPermit_running : Phase.running.holdsPermit = true := rfl

@[simp] theorem holdsPermit_reporting (r : DownloadResult) :
    (Phase.reporting r).holdsPermit = false := rfl

@[simp] theorem isRunning_waiting : Phase.waiting.isRunning = false := rfl

@[simp] theorem isRunning_holding : Phase.holding.isRunning = false := rfl

@[simp] theorem isRunning_ready : Phase.ready.isRunning = false := rfl

@[simp] theorem isRunning_running : Phase.running.isRunning = true := rfl

@[simp] theorem isRunning_reporting (r : DownloadResult) :
    (Phase.reporting r).isRunning = false := rfl

theorem setPhase_id (t : Task) (ph : Phase) : (setPhase t ph).id = t.id := rfl

theorem setPhase_phase (t : Task) (ph : Phase) : (setPhase t ph).phase = ph := rfl

theorem checkForCompleted_nil {s : DLState} (h : s.channel = []) :
    checkForCompleted s = (none, s) := by
  simp [checkForCompleted, h]

theorem checkForCompleted_cons {s : DLState} {r : DownloadResult}
    {rest : List DownloadResult} (h : s.channel = r :: rest) :
    checkForCompleted s =
      (some r,
        { s with
            channel := rest
            downloads := s.downloads.erase r.sourceId
            token := if s.token = some r.sourceId then none else s.token }) := by
  simp [checkForCompleted, h]

theorem resultOf_sourceId (id path : String) (e : Except Unit Bool) :
    (resultOf id path e).sourceId = id := by
  cases e with
  | ok b => cases b <;> rfl
  | error u => rfl

theorem heldL_append (l1 l2 : List Task) :
    heldL (l1 ++ l2) = heldL l1 + heldL l2 := by
  simp [heldL, List.countP_append]

theorem heldL_cons (t : Task) (l : List Task) :
    heldL (t :: l) = t.phase.holdsPermit.toNat + heldL l := by
  cases h : t.phase.holdsPermit <;> simp [heldL, List.countP_cons, h, Nat.add_comm]

theorem heldL_nil : heldL [] = 0 := rfl

theorem tasksWith_append (x : String) (l1 l2 : List Task) :
    tasksWith x (l1 ++ l2) = tasksWith x l1 + tasksWith x l2 := by
  simp [tasksWith, List.countP_append]

theorem tasksWith_cons (x : String) (t : Task) (l : List Task) :
    tasksWith x (t :: l) = (if t.id = x then 1 else 0) + tasksWith x l := by
  simp [tasksWith, List.countP_cons, beq_iff_eq, Nat.add_comm]

theorem tasksWith_nil (x : String) : tasksWith x [] = 0 := rfl

theorem resultsWith_append (x : String) (c1 c2 : List DownloadResult) :
    resultsWith x (c1 ++ c2) = resultsWith x c1 + resultsWith x c2 := by
  simp [resultsWith, List.countP_append]

theorem resultsWith_cons (x : String) (r : DownloadResult)
    (c : List DownloadResult) :
    resultsWith x (r :: c) = (if r.sourceId = x then 1 else 0) + resultsWith x c := by
  simp [resultsWith, List.countP_cons, beq_iff_eq, Nat.add_comm]

theorem resultsWith_nil (x : String) : resultsWith x [] = 0 := rfl

theorem inv_init (n : Nat) : Inv n (initState n) := by
  refine ⟨rfl, ?_, ?_, ?_, ?_⟩ <;>
    simp [initState, heldCount, heldL, liveCount, tasksWith, resultsWith]

theorem inv_step {n : Nat} {s s' : DLState} (hInv : Inv n s) (hs : Step s s') :
    Inv n s' := by
  obtain ⟨hcap, hperm, hle, hmem, hrep⟩ := hInv
  obtain ⟨l, hl⟩ := hs
  cases hl with
  | request s ytId filePath =>
      by_cases hy : ytId ∈ s.downloads
      · simp only [downloadUrl, if_pos hy]
        exact ⟨hcap, hperm, hle, hmem, hrep⟩
      · simp only [downloadUrl, if_neg hy]
        have hy0 : liveCount ytId s = 0 := by
          by_contra h0
          exact hy (hmem ytId (by omega))
        refine ⟨hcap, ?_, ?_, ?_, ?_⟩
        · show s.avail + heldL (s.tasks ++ [⟨ytId, filePath, Phase.waiting⟩]) = n
          simp only [heldL_append, heldL_cons, heldL_nil, holdsPermit_waiting,
            Bool.toNat_false]
          simpa [heldCount] using hperm
        · intro x
          show tasksWith x (s.tasks ++ [⟨ytId, filePath, Phase.waiting⟩]) +
            resultsWith x s.channel ≤ 1
          have hx1 := hle x
          simp only [liveCount] at hx1 hy0
          by_cases hx : ytId = x
          · subst hx
            have heq : tasksWith ytId (s.tasks ++ [⟨ytId, filePath, Phase.waiting⟩]) =
                tasksWith ytId s.tasks + 1 := by
              simp [tasksWith_append, tasksWith_cons, tasksWith_nil]
            rw [heq]
            omega
          · have heq : tasksWith x (s.tasks ++ [⟨ytId, filePath, Phase.waiting⟩]) =
                tasksWith x s.tasks := by
              simp [tasksWith_append, tasksWith_cons, tasksWith_nil, hx]
            rw [heq]
            omega
        · intro x hx1
          show x ∈ ytId :: s.downloads
          simp only [liveCount, tasksWith_append, tasksWith_cons,
            tasksWith_nil] at hx1
          by_cases hx : ytId = x
          · exact hx ▸ List.mem_cons_self _ _
          · refine List.mem_cons_of_mem _ (hmem x ?_)
            simp only [if_neg hx] at hx1
            simp only [liveCount]
            omega
        · intro t ht r hr
          simp only [List.mem_append, List.mem_cons, List.not_mem_nil,
            or_false] at ht
          rcases ht with ht | ht
          · exact hrep t ht r hr
          · subst ht; simp at hr
  | consume s r rest hch =>
      rw [checkForCompleted_cons hch]
      have hres : ∀ x, resultsWith x s.channel =
          (if r.sourceId = x then 1 else 0) + resultsWith x rest := by
        intro x
        rw [hch, resultsWith_cons]
      refine ⟨hcap, ?_, ?_, ?_, ?_⟩
      · exact hperm
      · intro x
        have h1 := hle x
        have h2 := hres x
        simp only [liveCount] at h1 ⊢
        omega
      · intro x hx1
        simp only [liveCount] at hx1
        by_cases hx : x = r.sourceId
        · exfalso
          have h1 := hle x
          have h2 := hres x
          rw [if_pos hx.symm] at h2
          simp only [liveCount] at h1
          omega
        · rw [List.mem_erase_of_ne hx]
          apply hmem x
          have h2 := hres x
          simp only [liveCount]
          omega
      · intro t ht r' hr'
        exact hrep t ht r' hr'
  | acquire s pre post t htasks hph havail =>
      have hperm' : s.avail + heldL (pre ++ t :: post) = n := by
        simpa [heldCount, htasks] using hperm
      refine ⟨hcap, ?_, ?_, ?_, ?_⟩
      · show s.avail - 1 + heldL (pre ++ setPhase t Phase.holding :: post) = n
        simp only [heldCount, heldL_append, heldL_cons, setPhase_phase, hph,
          holdsPermit_waiting, holdsPermit_holding, holdsPermit_ready, holdsPermit_running, holdsPermit_reporting, heldL_nil, Bool.toNat_true, Bool.toNat_false] at hperm' ⊢
        omega
      · intro x
        have := hle x
        simp only [liveCount, htasks, tasksWith_append, tasksWith_cons,
          setPhase_id] at this ⊢
        omega
      · intro x hx1
        apply hmem x
        simp only [liveCount, htasks, tasksWith_append, tasksWith_cons,
          setPhase_id] at hx1 ⊢
        omega
      · intro u hu r' hr'
        simp only [List.mem_append, List.mem_cons] at hu
        rcases hu with hu | hu | hu
        · exact hrep u (htasks ▸ List.mem_append_left _ hu) r' hr'
        · subst hu; simp [setPhase] at hr'
        · exact hrep u (htasks ▸ List.mem_append_right _
            (List.mem_cons_of_mem _ hu)) r' hr'
  | gatePass s pre post t htasks hph hgate =>
      have hperm' : s.avail + heldL (pre ++ t :: post) = n := by
        simpa [heldCount, htasks] using hperm
      refine ⟨hcap, ?_, ?_, ?_, ?_⟩
      · show s.avail + heldL (pre ++ setPhase t Phase.ready :: post) = n
        simp only [heldCount, heldL_append, heldL_cons, setPhase_phase, hph,
          holdsPermit_waiting, holdsPermit_holding, holdsPermit_ready, holdsPermit_running, holdsPermit_reporting, heldL_nil, Bool.toNat_true, Bool.toNat_false] at hperm' ⊢
        omega
      · intro x
        have := hle x
        simp only [liveCount, htasks, tasksWith_append, tasksWith_cons,
          setPhase_id] at this ⊢
        omega
      · intro x hx1
        apply hmem x
        simp only [liveCount, htasks, tasksWith_append, tasksWith_cons,
          setPhase_id] at hx1 ⊢
        omega
      · intro u hu r' hr'
        simp only [List.mem_append, List.mem_cons] at hu
        rcases hu with hu | hu | hu
        · exact hrep u (htasks ▸ List.mem_append_left _ hu) r' hr'
        · subst hu; simp [setPhase] at hr'
        · exact hrep u (htasks ▸ List.mem_append_right _
            (List.mem_cons_of_mem _ hu)) r' hr'
  | gateFail s pre post t u htasks hph hgate hne =>
      have hperm' : s.avail + heldL (pre ++ t :: post) = n := by
        simpa [heldCount, htasks] using hperm
      refine ⟨hcap, ?_, ?_, ?_, ?_⟩
      · show s.avail + 1 + heldL (pre ++ setPhase t Phase.waiting :: post) = n
        simp only [heldCount, heldL_append, heldL_cons, setPhase_phase, hph,
          holdsPermit_waiting, holdsPermit_holding, holdsPermit_ready, holdsPermit_running, holdsPermit_reporting, heldL_nil, Bool.toNat_true, Bool.toNat_false] at hperm' ⊢
        omega
      · intro x
        have := hle x
        simp only [liveCount, htasks, tasksWith_append, tasksWith_cons,
          setPhase_id] at this ⊢
        omega
      · intro x hx1
        apply hmem x
        simp only [liveCount, htasks, tasksWith_append, tasksWith_cons,
          setPhase_id] at hx1 ⊢
        omega
      · intro v hv r' hr'
        simp only [List.mem_append, List.mem_cons] at hv
        rcases hv with hv | hv | hv
        · exact hrep v (htasks ▸ List.mem_append_left _ hv) r' hr'
        · subst hv; simp [setPhase] at hr'
        · exact hrep v (htasks ▸ List.mem_append_right _
            (List.mem_cons_of_mem _ hv)) r' hr'
  | spawnOk s pre post t htasks hph =>
      have hperm' : s.avail + heldL (pre ++ t :: post) = n := by
        simpa [heldCount, htasks] using hperm
      refine ⟨hcap, ?_, ?_, ?_, ?_⟩
      · show s.avail + heldL (pre ++ setPhase t Phase.running :: post) = n
        simp only [heldCount, heldL_append, heldL_cons, setPhase_phase, hph,
          holdsPermit_waiting, holdsPermit_holding, holdsPermit_ready, holdsPermit_running, holdsPermit_reporting, heldL_nil, Bool.toNat_true, Bool.toNat_false] at hperm' ⊢
        omega
      · intro x
        have := hle x
        simp only [liveCount, htasks, tasksWith_append, tasksWith_cons,
          setPhase_id] at this ⊢
        omega
      · intro x hx1
        apply hmem x
        simp only [liveCount, htasks, tasksWith_append, tasksWith_cons,
          setPhase_id] at hx1 ⊢
        omega
      · intro v hv r' hr'
        simp only [List.mem_append, List.mem_cons] at hv
        rcases hv with hv | hv | hv
        · exact hrep v (htasks ▸ List.mem_append_left _ hv) r' hr'
        · subst hv; simp [setPhase] at hr'
        · exact hrep v (htasks ▸ List.mem_append_right _
            (List.mem_cons_of_mem _ hv)) r' hr'
  | spawnFail s pre post t htasks hph =>
      have hperm' : s.avail + heldL (pre ++ t :: post) = n := by
        simpa [heldCount, htasks] using hperm
      refine ⟨hcap, ?_, ?_, ?_, ?_⟩
      · show s.avail + 1 + heldL (pre ++ post) = n
        simp only [heldCount, heldL_append, heldL_cons, hph,
          holdsPermit_waiting, holdsPermit_holding, holdsPermit_ready, holdsPermit_running, holdsPermit_reporting, heldL_nil, Bool.toNat_true, Bool.toNat_false] at hperm' ⊢
        omega
      · intro x
        have := hle x
        simp only [liveCount, htasks, tasksWith_append, tasksWith_cons] at this ⊢
        omega
      · intro x hx1
        apply hmem x
        simp only [liveCount, htasks, tasksWith_append, tasksWith_cons] at hx1 ⊢
        omega
      · intro v hv r' hr'
        simp only [List.mem_append] at hv
        rcases hv with hv | hv
        · exact hrep v (htasks ▸ List.mem_append_left _ hv) r' hr'
        · exact hrep v (htasks ▸ List.mem_append_right _
            (List.mem_cons_of_mem _ hv)) r' hr'
  | exits s pre post t exit htasks hph =>
      have hperm' : s.avail + heldL (pre ++ t :: post) = n := by
        simpa [heldCount, htasks] using hperm
      refine ⟨hcap, ?_, ?_, ?_, ?_⟩
      · show s.avail + 1 +
          heldL (pre ++ setPhase t (Phase.reporting (resultOf t.id t.path exit)) :: post) = n
        simp only [heldCount, heldL_append, heldL_cons, setPhase_phase, hph,
          holdsPermit_waiting, holdsPermit_holding, holdsPermit_ready, holdsPermit_running, holdsPermit_reporting, heldL_nil, Bool.toNat_true, Bool.toNat_false] at hperm' ⊢
        omega
      · intro x
        have := hle x
        simp only [liveCount, htasks, tasksWith_append, tasksWith_cons,
          setPhase_id] at this ⊢
        omega
      · intro x hx1
        apply hmem x
        simp only [liveCount, htasks, tasksWith_append, tasksWith_cons,
          setPhase_id] at hx1 ⊢
        omega
      · intro v hv r' hr'
        simp only [List.mem_append, List.mem_cons] at hv
        rcases hv with hv | hv | hv
        · exact hrep v (htasks ▸ List.mem_append_left _ hv) r' hr'
        · subst hv
          simp only [setPhase_phase, Phase.reporting.injEq] at hr'
          subst hr'
          simp [setPhase, resultOf_sourceId]
        · exact hrep v (htasks ▸ List.mem_append_right _
            (List.mem_cons_of_mem _ hv)) r' hr'
  | report s pre post t r htasks hph hcapc =>
      have htmem : t ∈ s.tasks :=
        htasks ▸ List.mem_append_right _ (List.mem_cons_self _ _)
      have hrid : r.sourceId = t.id := hrep t htmem r hph
      have hperm' : s.avail + heldL (pre ++ t :: post) = n := by
        simpa [heldCount, htasks] using hperm
      refine ⟨hcap, ?_, ?_, ?_, ?_⟩
      · show s.avail + heldL (pre ++ post) = n
        simp only [heldCount, heldL_append, heldL_cons, hph,
          holdsPermit_waiting, holdsPermit_holding, holdsPermit_ready, holdsPermit_running, holdsPermit_reporting, heldL_nil, Bool.toNat_true, Bool.toNat_false] at hperm' ⊢
        omega
      · intro x
        have := hle x
        simp only [liveCount, htasks, tasksWith_append, tasksWith_cons,
          resultsWith_append, resultsWith_cons, resultsWith_nil, hrid] at this ⊢
        omega
      · intro x hx1
        apply hmem x
        simp only [liveCount, htasks, tasksWith_append, tasksWith_cons,
          resultsWith_append, resultsWith_cons, resultsWith_nil, hrid] at hx1 ⊢
        omega
      · intro v hv r' hr'
        simp only [List.mem_append] at hv
        rcases hv with hv | hv
        · exact hrep v (htasks ▸ List.mem_append_left _ hv) r' hr'
        · exact hrep v (htasks ▸ List.mem_append_right _
            (List.mem_cons_of_mem _ hv)) r' hr'

theorem reachable_inv {n : Nat} {s : DLState} (h : Reachable n s) : Inv n s := by
  induction h with
  | init => exact inv_init n
  | step _ hs ih => exact inv_step ih hs

theorem runningL_le_heldL (l : List Task) : runningL l ≤ heldL l := by
  induction l with
  | nil => exact Nat.le_refl 0
  | cons t l ih =>
      simp only [runningL, heldL, List.countP_cons] at ih ⊢
      cases h : t.phase <;> simp [h] <;> omega

/-! ### The concrete run refuting `PriorityBlocksSpawn` -/

theorem lstep_cast {l : Label} {s s1 s2 : DLState} (h : LStep l s s1)
    (he : s1 = s2) : LStep l s s2 := he ▸ h

theorem cex_step1 : LStep (.request "a" "p") (initState 1) cexS1 :=
  lstep_cast (LStep.request (initState 1) "a" "p") (by decide)

theorem cex_step2 : LStep (.acquire "a") cexS1 cexS2 :=
  lstep_cast
    (LStep.acquire cexS1 [] [] ⟨"a", "p", Phase.waiting⟩ (by decide) rfl (by decide))
    (by decide)

theorem cex_step3 : LStep (.gatePass "a") cexS2 cexS3 :=
  lstep_cast
    (LStep.gatePass cexS2 [] [] ⟨"a", "p", Phase.holding⟩ (by decide) rfl (by decide))
    (by decide)

theorem cex_step4 : LStep (.request "b" "q") cexS3 cexS4 :=
  lstep_cast (LStep.request cexS3 "b" "q") (by decide)

theorem cex_step5 : LStep (.spawn "a" true) cexS4 cexS5 :=
  lstep_cast
    (LStep.spawnOk cexS4 [] [⟨"b", "q", Phase.waiting⟩] ⟨"a", "p", Phase.ready⟩
      (by decide) rfl)
    (by decide)

theorem two_split {t1 t2 t : Task} {pre post : List Task}
    (h : [t1, t2] = pre ++ t :: post) :
    (pre = [] ∧ t = t1 ∧ post = [t2]) ∨ (pre = [t1] ∧ t = t2 ∧ post = []) := by
  cases pre with
  | nil =>
      simp only [List.nil_append] at h
      injection h with h1 h2
      exact Or.inl ⟨rfl, h1.symm, h2.symm⟩
  | cons p ps =>
      cases ps with
      | nil =>
          simp only [List.cons_append, List.nil_append] at h
          injection h with h1 h2
          injection h2 with h3 h4
          exact Or.inr ⟨by rw [h1], h3.symm, h4.symm⟩
      | cons q qs =>
          simp only [List.cons_append] at h
          injection h with h1 h2
          injection h2 with h3 h4
          simp at h4

/-- One scheduler step out of a scenario shape either is the spawn attempt
of `b`, or is not a spawn at all and stays inside the scenario shapes. -/
theorem kstate_step {a b pa pb : String} (hab : a ≠ b) {l : Label}
    {s s' : DLState} (hK : Kstate a b pa pb s) (hl : LStep l s s')
    (hsched : schedOnly l = true) :
    (∃ ok, l = Label.spawn b ok) ∨
      ((∀ x ok, l ≠ Label.spawn x ok) ∧ Kstate a b pa pb s') := by
  unfold Kstate at hK
  cases hl with
  | request s ytId filePath => simp [schedOnly] at hsched
  | consume s r rest hch => simp [schedOnly] at hsched
  | acquire s pre post t htasks hph havail =>
      refine Or.inr ⟨fun x ok h => Label.noConfusion h, ?_⟩
      unfold Kstate
      rcases hK with rfl | rfl | rfl | rfl
      · have h2 : [⟨a, pa, Phase.waiting⟩, ⟨b, pb, Phase.waiting⟩] =
            pre ++ t :: post := htasks
        rcases two_split h2 with ⟨rfl, rfl, rfl⟩ | ⟨rfl, rfl, rfl⟩
        · exact Or.inr (Or.inl rfl)
        · exact Or.inr (Or.inr (Or.inl rfl))
      · have h0 : (0 : Nat) < 0 := havail
        exact absurd h0 (Nat.lt_irrefl 0)
      · have h0 : (0 : Nat) < 0 := havail
        exact absurd h0 (Nat.lt_irrefl 0)
      · have h0 : (0 : Nat) < 0 := havail
        exact absurd h0 (Nat.lt_irrefl 0)
  | gatePass s pre post t htasks hph hgate =>
      refine Or.inr ⟨fun x ok h => Label.noConfusion h, ?_⟩
      unfold Kstate
      rcases hK with rfl | rfl | rfl | rfl
      · have h2 : [⟨a, pa, Phase.waiting⟩, ⟨b, pb, Phase.waiting⟩] =
            pre ++ t :: post := htasks
        rcases two_split h2 with ⟨rfl, rfl, rfl⟩ | ⟨rfl, rfl, rfl⟩
        · exact Phase.noConfusion (hph : Phase.waiting = Phase.holding)
        · exact Phase.noConfusion (hph : Phase.waiting = Phase.holding)
      · have h2 : [⟨a, pa, Phase.holding⟩, ⟨b, pb, Phase.waiting⟩] =
            pre ++ t :: post := htasks
        rcases two_split h2 with ⟨rfl, rfl, rfl⟩ | ⟨rfl, rfl, rfl⟩
        · exfalso
          have hg : (tryClaim (some b) a).1 = true := hgate
          simp only [tryClaim] at hg
          rw [if_neg (fun h => hab h.symm)] at hg
          exact Bool.noConfusion (hg : false = true)
        · exact Phase.noConfusion (hph : Phase.waiting = Phase.holding)
      · have h2 : [⟨a, pa, Phase.waiting⟩, ⟨b, pb, Phase.holding⟩] =
            pre ++ t :: post := htasks
        rcases two_split h2 with ⟨rfl, rfl, rfl⟩ | ⟨rfl, rfl, rfl⟩
        · exact Phase.noConfusion (hph : Phase.waiting = Phase.holding)
        · refine Or.inr (Or.inr (Or.inr ?_))
          simp [scenarioState, setPhase, tryClaim]
      · have h2 : [⟨a, pa, Phase.waiting⟩, ⟨b, pb, Phase.ready⟩] =
            pre ++ t :: post := htasks
        rcases two_split h2 with ⟨rfl, rfl, rfl⟩ | ⟨rfl, rfl, rfl⟩
        · exact Phase.noConfusion (hph : Phase.waiting = Phase.holding)
        · exact Phase.noConfusion (hph : Phase.ready = Phase.holding)
  | gateFail s pre post t u htasks hph hgate hne =>
      refine Or.inr ⟨fun x ok h => Label.noConfusion h, ?_⟩
      unfold Kstate
      rcases hK with rfl | rfl | rfl | rfl
      · have h2 : [⟨a, pa, Phase.waiting⟩, ⟨b, pb, Phase.waiting⟩] =
            pre ++ t :: post := htasks
        rcases two_split h2 with ⟨rfl, rfl, rfl⟩ | ⟨rfl, rfl, rfl⟩
        · exact Phase.noConfusion (hph : Phase.waiting = Phase.holding)
        · exact Phase.noConfusion (hph : Phase.waiting = Phase.holding)
      · have h2 : [⟨a, pa, Phase.holding⟩, ⟨b, pb, Phase.waiting⟩] =
            pre ++ t :: post := htasks
        rcases two_split h2 with ⟨rfl, rfl, rfl⟩ | ⟨rfl, rfl, rfl⟩
        · exact Or.inl rfl
        · exact Phase.noConfusion (hph : Phase.waiting = Phase.holding)
      · have h2 : [⟨a, pa, Phase.waiting⟩, ⟨b, pb, Phase.holding⟩] =
            pre ++ t :: post := htasks
        rcases two_split h2 with ⟨rfl, rfl, rfl⟩ | ⟨rfl, rfl, rfl⟩
        · exact Phase.noConfusion (hph : Phase.waiting = Phase.holding)
        · exfalso
          have hu : some b = some u := hgate
          injection hu with hu
          exact (hne : u ≠ b) hu.symm
      · have h2 : [⟨a, pa, Phase.waiting⟩, ⟨b, pb, Phase.ready⟩] =
            pre ++ t :: post := htasks
        rcases two_split h2 with ⟨rfl, rfl, rfl⟩ | ⟨rfl, rfl, rfl⟩
        · exact Phase.noConfusion (hph : Phase.waiting = Phase.holding)
        · exact Phase.noConfusion (hph : Phase.ready = Phase.holding)
  | spawnOk s pre post t htasks hph =>
      rcases hK with rfl | rfl | rfl | rfl
      · have h2 : [⟨a, pa, Phase.waiting⟩, ⟨b, pb, Phase.waiting⟩] =
            pre ++ t :: post := htasks
        rcases two_split h2 with ⟨rfl, rfl, rfl⟩ | ⟨rfl, rfl, rfl⟩
        · exact Phase.noConfusion (hph : Phase.waiting = Phase.ready)
        · exact Phase.noConfusion (hph : Phase.waiting = Phase.ready)
      · have h2 : [⟨a, pa, Phase.holding⟩, ⟨b, pb, Phase.waiting⟩] =
            pre ++ t :: post := htasks
        rcases two_split h2 with ⟨rfl, rfl, rfl⟩ | ⟨rfl, rfl, rfl⟩
        · exact Phase.noConfusion (hph : Phase.holding = Phase.ready)
        · exact Phase.noConfusion (hph : Phase.waiting = Phase.ready)
      · have h2 : [⟨a, pa, Phase.waiting⟩, ⟨b, pb, Phase.holding⟩] =
            pre ++ t :: post := htasks
        rcases two_split h2 with ⟨rfl, rfl, rfl⟩ | ⟨rfl, rfl, rfl⟩
        · exact Phase.noConfusion (hph : Phase.waiting = Phase.ready)
        · exact Phase.noConfusion (hph : Phase.holding = Phase.ready)
      · have h2 : [⟨a, pa, Phase.waiting⟩, ⟨b, pb, Phase.ready⟩] =
            pre ++ t :: post := htasks
        rcases two_split h2 with ⟨rfl, rfl, rfl⟩ | ⟨rfl, rfl, rfl⟩
        · exact Phase.noConfusion (hph : Phase.waiting = Phase.ready)
        · exact Or.inl ⟨true, rfl⟩
  | spawnFail s pre post t htasks hph =>
      rcases hK with rfl | rfl | rfl | rfl
      · have h2 : [⟨a, pa, Phase.waiting⟩, ⟨b, pb, Phase.waiting⟩] =
            pre ++ t :: post := htasks
        rcases two_split h2 with ⟨rfl, rfl, rfl⟩ | ⟨rfl, rfl, rfl⟩
        · exact Phase.noConfusion (hph : Phase.waiting = Phase.ready)
        · exact Phase.noConfusion (hph : Phase.waiting = Phase.ready)
      · have h2 : [⟨a, pa, Phase.holding⟩, ⟨b, pb, Phase.waiting⟩] =
            pre ++ t :: post := htasks
        rcases two_split h2 with ⟨rfl, rfl, rfl⟩ | ⟨rfl, rfl, rfl⟩
        · exact Phase.noConfusion (hph : Phase.holding = Phase.ready)
        · exact Phase.noConfusion (hph : Phase.waiting = Phase.ready)
      · have h2 : [⟨a, pa, Phase.waiting⟩, ⟨b, pb, Phase.holding⟩] =
            pre ++ t :: post := htasks
        rcases two_split h2 with ⟨rfl, rfl, rfl⟩ | ⟨rfl, rfl, rfl⟩
        · exact Phase.noConfusion (hph : Phase.waiting = Phase.ready)
        · exact Phase.noConfusion (hph : Phase.holding = Phase.ready)
      · have h2 : [⟨a, pa, Phase.waiting⟩, ⟨b, pb, Phase.ready⟩] =
            pre ++ t :: post := htasks
        rcases two_split h2 with ⟨rfl, rfl, rfl⟩ | ⟨rfl, rfl, rfl⟩
        · exact Phase.noConfusion (hph : Phase.waiting = Phase.ready)
        · exact Or.inl ⟨false, rfl⟩
  | exits s pre post t exit htasks hph =>
      refine Or.inr ⟨fun x ok h => Label.noConfusion h, ?_⟩
      rcases hK with rfl | rfl | rfl | rfl
      · have h2 : [⟨a, pa, Phase.waiting⟩, ⟨b, pb, Phase.waiting⟩] =
            pre ++ t :: post := htasks
        rcases two_split h2 with ⟨rfl, rfl, rfl⟩ | ⟨rfl, rfl, rfl⟩
        · exact Phase.noConfusion (hph : Phase.waiting = Phase.running)
        · exact Phase.noConfusion (hph : Phase.waiting = Phase.running)
      · have h2 : [⟨a, pa, Phase.holding⟩, ⟨b, pb, Phase.waiting⟩] =
            pre ++ t :: post := htasks
        rcases two_split h2 with ⟨rfl, rfl, rfl⟩ | ⟨rfl, rfl, rfl⟩
        · exact Phase.noConfusion (hph : Phase.holding = Phase.running)
        · exact Phase.noConfusion (hph : Phase.waiting = Phase.running)
      · have h2 : [⟨a, pa, Phase.waiting⟩, ⟨b, pb, Phase.holding⟩] =
            pre ++ t :: post := htasks
        rcases two_split h2 with ⟨rfl, rfl, rfl⟩ | ⟨rfl, rfl, rfl⟩
        · exact Phase.noConfusion (hph : Phase.waiting = Phase.running)
        · exact Phase.noConfusion (hph : Phase.holding = Phase.running)
      · have h2 : [⟨a, pa, Phase.waiting⟩, ⟨b, pb, Phase.ready⟩] =
            pre ++ t :: post := htasks
        rcases two_split h2 with ⟨rfl, rfl, rfl⟩ | ⟨rfl, rfl, rfl⟩
        · exact Phase.noConfusion (hph : Phase.waiting = Phase.running)
        · exact Phase.noConfusion (hph : Phase.ready = Phase.running)
  | report s pre post t r htasks hph hcapc =>
      refine Or.inr ⟨fun x ok h => Label.noConfusion h, ?_⟩
      rcases hK with rfl | rfl | rfl | rfl
      · have h2 : [⟨a, pa, Phase.waiting⟩, ⟨b, pb, Phase.waiting⟩] =
            pre ++ t :: post := htasks
        rcases two_split h2 with ⟨rfl, rfl, rfl⟩ | ⟨rfl, rfl, rfl⟩
        · exact Phase.noConfusion (hph : Phase.waiting = Phase.reporting r)
        · exact Phase.noConfusion (hph : Phase.waiting = Phase.reporting r)
      · have h2 : [⟨a, pa, Phase.holding⟩, ⟨b, pb, Phase.waiting⟩] =
            pre ++ t :: post := htasks
        rcases two_split h2 with ⟨rfl, rfl, rfl⟩ | ⟨rfl, rfl, rfl⟩
        · exact Phase.noConfusion (hph : Phase.holding = Phase.reporting r)
        · exact Phase.noConfusion (hph : Phase.waiting = Phase.reporting r)
      · have h2 : [⟨a, pa, Phase.waiting⟩, ⟨b, pb, Phase.holding⟩] =
            pre ++ t :: post := htasks
        rcases two_split h2 with ⟨rfl, rfl, rfl⟩ | ⟨rfl, rfl, rfl⟩
        · exact Phase.noConfusion (hph : Phase.waiting = Phase.reporting r)
        · exact Phase.noConfusion (hph : Phase.holding = Phase.reporting r)
      · have h2 : [⟨a, pa, Phase.waiting⟩, ⟨b, pb, Phase.ready⟩] =
            pre ++ t :: post := htasks
        rcases two_split h2 with ⟨rfl, rfl, rfl⟩ | ⟨rfl, rfl, rfl⟩
        · exact Phase.noConfusion (hph : Phase.waiting = Phase.reporting r)
        · exact Phase.noConfusion (hph : Phase.ready = Phase.reporting r)

theorem cexS4_reachable : Reachable 1 cexS4 :=
  Reachable.step
    (Reachable.step
      (Reachable.step
        (Reachable.step Reachable.init ⟨_, cex_step1⟩)
        ⟨_, cex_step2⟩)
      ⟨_, cex_step3⟩)
    ⟨_, cex_step4⟩

/-- Along any scheduler-only execution out of a scenario shape, the first
spawn attempt (if any) does not belong to `a`. -/
theorem kstate_trace {a b pa pb : String} (hab : a ≠ b) :
    ∀ (tr : List Label) (s s' : DLState), Kstate a b pa pb s →
      Exec s tr s' → (∀ l ∈ tr, schedOnly l = true) →
      firstSpawn tr ≠ some a := by
  intro tr
  induction tr with
  | nil =>
      intro s s' _ _ _
      simp [firstSpawn]
  | cons l rest ih =>
      intro s s' hK hex hsched
      cases hex with
      | cons hstep hrest =>
          have hsl := hsched l (List.mem_cons_self _ _)
          rcases kstate_step hab hK hstep hsl with ⟨ok, rfl⟩ | ⟨hnot, hK2⟩
          · intro hcontra
            simp only [firstSpawn] at hcontra
            injection hcontra with hc
            exact hab hc.symm
          · have hfs : firstSpawn (l :: rest) = firstSpawn rest := by
              cases l with
              | spawn x ok => exact absurd rfl (hnot x ok)
              | request y p => rfl
              | consume => rfl
              | acquire i => rfl
              | gatePass i => rfl
              | gateFail i => rfl
              | exits i e => rfl
              | report i => rfl
            rw [hfs]
            exact ih _ _ hK2 hrest fun m hm => hsched m (List.mem_cons_of_mem _ hm)

/-! ## Claim theorems -/

/-- C1: with pool capacity `n ≥ 1`, in every reachable downloader state the
free permits plus the permits owned by tasks equal `n`, so at most `n`
subprocesses run at any instant; the permit is released at subprocess exit
(`exits` frees one permit) and the subsequent result report does not touch
the permit count (the permit was already released before reporting). -/
theorem C1_bounded_pool (n : Nat) (s : DLState) (_hn : 1 ≤ n)
    (hr : Reachable n s) :
    s.avail + heldCount s = n ∧ runningCount s ≤ n ∧
    (∀ (i : String) (s' : DLState), LStep (Label.report i) s s' →
      s'.avail = s.avail) ∧
    (∀ (i : String) (e : Except Unit Bool) (s' : DLState),
      LStep (Label.exits i e) s s' → s'.avail = s.avail + 1) := by
  obtain ⟨hcap, hperm, _, _, _⟩ := reachable_inv hr
  refine ⟨hperm, ?_, ?_, ?_⟩
  · have h := runningL_le_heldL s.tasks
    simp only [runningCount, heldCount] at *
    omega
  · intro i s' h
    cases h
    rfl
  · intro i e s' h
    cases h
    rfl

theorem C1_bounded_pool_witness :
    (initState 3).avail + heldCount (initState 3) = 3 ∧
    runningCount (initState 3) ≤ 3 ∧
    (∀ (i : String) (s' : DLState), LStep (Label.report i) (initState 3) s' →
      s'.avail = (initState 3).avail) ∧
    (∀ (i : String) (e : Except Unit Bool) (s' : DLState),
      LStep (Label.exits i e) (initState 3) s' →
      s'.avail = (initState 3).avail + 1) :=
  C1_bounded_pool 3 (initState 3) (by decide) Reachable.init

/-- C2: in any reachable state in which `x` is already in the enqueued set,
`download_url(x)` only overwrites the priority token — it registers nothing
and spawns no task — and at most one live task-or-unconsumed-result exists
for `x` (at most one external process per SourceId between registration and
consumption). -/
theorem C2_no_duplicate_work (n : Nat) (s : DLState) (x p : String)
    (hr : Reachable n s) (hx : x ∈ s.downloads) :
    downloadUrl s x p = { s with token := some x } ∧ liveCount x s ≤ 1 := by
  obtain ⟨_, _, hle, _, _⟩ := reachable_inv hr
  exact ⟨by simp [downloadUrl, hx], hle x⟩

theorem C2_no_duplicate_work_witness :
    downloadUrl (downloadUrl (initState 1) "a" "p") "a" "q" =
      { downloadUrl (initState 1) "a" "p" with token := some "a" } ∧
    liveCount "a" (downloadUrl (initState 1) "a" "p") ≤ 1 :=
  C2_no_duplicate_work 1 (downloadUrl (initState 1) "a" "p") "a" "q"
    (Reachable.step Reachable.init ⟨_, LStep.request _ "a" "p"⟩) (by decide)

/-- C3 counterexample: the claim as stated is false. Run: request `a`; `a`
acquires the permit and passes the gate (clearing its own token); request
`b` (token becomes `b`); now `a` — whose gate check is already behind it —
starts its subprocess in a state whose token is still `b`. -/
theorem C3_counterexample : ¬ PriorityBlocksSpawn := by
  intro h
  have hba := h 1 "b" cexS4 cexS5 "a" true cexS4_reachable rfl cex_step5
  exact absurd hba (by decide)

/-- C3 (amended): while the priority token is `b`, no task with a different
id ever *exits its permit-wait loop* (passes the gate); and in the
capacity-1 scenario — `a` then `b` requested, both still waiting — the
first subprocess spawn attempt in any scheduler-only execution belongs to
`b`, never to `a`. -/
theorem C3_priority_order :
    (∀ (b i : String) (s s' : DLState), s.token = some b →
        LStep (.gatePass i) s s' → i = b) ∧
    (∀ (a b pa pb : String) (tr : List Label) (s' : DLState), a ≠ b →
        Exec (scenarioState a b pa pb) tr s' →
        (∀ l ∈ tr, schedOnly l = true) →
        firstSpawn tr ≠ some a) := by
  constructor
  · intro b i s s' htok hl
    cases hl with
    | gatePass s pre post t htasks hph hgate =>
        rw [htok] at hgate
        simp only [tryClaim] at hgate
        by_cases h : b = t.id
        · exact h.symm
        · rw [if_neg h] at hgate
          have hg2 : false = true := hgate
          exact Bool.noConfusion hg2
  · intro a b pa pb tr s' hab hex hsched
    exact kstate_trace hab tr _ s' (Or.inl rfl) hex hsched

theorem C3_priority_order_witness :
    ("a" : String) = "a" ∧ firstSpawn [] ≠ some "a" :=
  ⟨C3_priority_order.1 "a" "a" cexS2 cexS3 rfl cex_step3,
   C3_priority_order.2 "a" "b" "p" "q" [] (scenarioState "a" "b" "p" "q")
     (by decide) (Exec.nil _) (by intro l hl; cases hl)⟩

/-- C4: the gate critical section succeeds exactly when the token is absent
or equal to the id of the caller; on a match it clears the token in the same
critical section; on a mismatch it leaves the token and fails, and the
step of the failing task returns its permit to the pool before retrying; no
task in its waiting phase owns a permit (permit accounting). -/
theorem C4_gate_semantics :
    (∀ (token : Option String) (id : String),
        (tryClaim token id).1 = true ↔ (token = none ∨ token = some id)) ∧
    (∀ id : String, tryClaim (some id) id = (true, none)) ∧
    (∀ t id : String, t ≠ id → tryClaim (some t) id = (false, some t)) ∧
    (∀ (i : String) (s s' : DLState), LStep (.gateFail i) s s' →
        s'.avail = s.avail + 1) ∧
    (∀ (n : Nat) (s : DLState), Reachable n s →
        s.avail + heldCount s = n) := by
  refine ⟨?_, ?_, ?_, ?_, ?_⟩
  · intro token id
    cases token with
    | none => simp [tryClaim]
    | some t =>
        by_cases h : t = id
        · subst h
          simp [tryClaim]
        · simp [tryClaim, h]
  · intro id
    simp [tryClaim]
  · intro t id h
    simp [tryClaim, h]
  · intro i s s' h
    cases h
    rfl
  · intro n s hr
    exact (reachable_inv hr).2.1

theorem C4_gate_semantics_witness :
    tryClaim (some "b") "a" = (false, some "b") ∧
    (initState 2).avail + heldCount (initState 2) = 2 :=
  ⟨C4_gate_semantics.2.2.1 "b" "a" (by decide),
   C4_gate_semantics.2.2.2.2 2 (initState 2) Reachable.init⟩

/-- C5 (code bug): the spawn-and-report tail of a download task. On a
successful spawn the task reports exactly `Completed(id, path)` for a zero
exit status and `Failed(id)` for a non-zero exit or a wait error — but when
`Command::spawn` itself fails, the code calls `.unwrap()` and panics, so
*nothing* is reported (`taskReport … none = none`), contradicting the
specified `Failed(id)` report. -/
theorem C5_spawn_failure_panics :
    taskReport "x" "p" none = none ∧
    (∀ id path : String, taskReport id path none = none) ∧
    (∀ (id path : String) (e : Except Unit Bool),
        taskReport id path (some e) = some (resultOf id path e)) ∧
    (∀ id path : String, resultOf id path (.ok true) = .completed id path) ∧
    (∀ id path : String, resultOf id path (.ok false) = .failed id) ∧
    (∀ id path : String, resultOf id path (.error ()) = .failed id) :=
  ⟨rfl, fun _ _ => rfl, fun _ _ _ => rfl, fun _ _ => rfl, fun _ _ => rfl,
   fun _ _ => rfl⟩

/-- C6: `check_for_completed_download` returns `none` and changes nothing
when no result is pending; when a result is pending it returns it, removes
its id from the enqueued set, clears the token exactly when it equals that
id (independently of any notion of currently pending track), and truncates
the channel; and consumption is the only transition of the whole system
that ever removes an id from the enqueued set. -/
theorem C6_consume_semantics :
    (∀ s : DLState, s.channel = [] → checkForCompleted s = (none, s)) ∧
    (∀ (s : DLState) (r : DownloadResult) (rest : List DownloadResult),
        s.channel = r :: rest →
        (checkForCompleted s).1 = some r ∧
        (checkForCompleted s).2.downloads = s.downloads.erase r.sourceId ∧
        (checkForCompleted s).2.token =
          (if s.token = some r.sourceId then none else s.token) ∧
        (checkForCompleted s).2.channel = rest) ∧
    (∀ (s s' : DLState) (x : String), Step s s' → x ∈ s.downloads →
        x ∉ s'.downloads →
        ∃ (r : DownloadResult) (rest : List DownloadResult),
          s.channel = r :: rest ∧ r.sourceId = x ∧
          s' = (checkForCompleted s).2) := by
  refine ⟨?_, ?_, ?_⟩
  · intro s h
    exact checkForCompleted_nil h
  · intro s r rest hch
    rw [checkForCompleted_cons hch]
    exact ⟨rfl, rfl, rfl, rfl⟩
  · intro s s' x hstep hin hout
    obtain ⟨l, hl⟩ := hstep
    cases hl with
    | request s y p =>
        exfalso
        apply hout
        by_cases hy : y ∈ s.downloads
        · simpa [downloadUrl, hy] using hin
        · simp only [downloadUrl, if_neg hy]
          exact List.mem_cons_of_mem _ hin
    | consume s r rest hch =>
        refine ⟨r, rest, hch, ?_, rfl⟩
        by_contra hne
        apply hout
        rw [checkForCompleted_cons hch]
        show x ∈ s.downloads.erase r.sourceId
        exact (List.mem_erase_of_ne fun h => hne h.symm).mpr hin
    | acquire s pre post t htasks hph havail => exact absurd hin hout
    | gatePass s pre post t htasks hph hgate => exact absurd hin hout
    | gateFail s pre post t u htasks hph hgate hne => exact absurd hin hout
    | spawnOk s pre post t htasks hph => exact absurd hin hout
    | spawnFail s pre post t htasks hph => exact absurd hin hout
    | exits s pre post t exit htasks hph => exact absurd hin hout
    | report s pre post t r htasks hph hcapc => exact absurd hin hout

theorem C6_consume_semantics_witness :
    checkForCompleted (initState 2) = (none, initState 2) ∧
    (checkForCompleted sampleConsume).1 = some (DownloadResult.failed "a") ∧
    (∃ (r : DownloadResult) (rest : List DownloadResult),
      sampleConsume.channel = r :: rest ∧ r.sourceId = "a" ∧
      (checkForCompleted sampleConsume).2 = (checkForCompleted sampleConsume).2) :=
  ⟨C6_consume_semantics.1 (initState 2) rfl,
   (C6_consume_semantics.2.1 sampleConsume (DownloadResult.failed "a") [] rfl).1,
   C6_consume_semantics.2.2 sampleConsume _ "a"
     ⟨Label.consume, LStep.consume sampleConsume (DownloadResult.failed "a") [] rfl⟩
     (by decide) (by decide)⟩

/-- C7: every `download_url(x)` call unconditionally overwrites the priority
token with `x`; in particular a duplicate request (x already enqueued) still
makes `x` the highest-priority pending download while spawning nothing. -/
theorem C7_token_overwrite (s : DLState) (x p : String) :
    (downloadUrl s x p).token = some x ∧
    (x ∈ s.downloads → downloadUrl s x p = { s with token := some x }) := by
  constructor
  · by_cases hx : x ∈ s.downloads <;> simp [downloadUrl, hx]
  · intro hx
    simp [downloadUrl, hx]

theorem C7_token_overwrite_witness :
    (downloadUrl (downloadUrl (initState 1) "a" "p") "a" "q").token = some "a" ∧
    downloadUrl (downloadUrl (initState 1) "a" "p") "a" "q" =
      { downloadUrl (initState 1) "a" "p" with token := some "a" } :=
  ⟨(C7_token_overwrite (downloadUrl (initState 1) "a" "p") "a" "q").1,
   (C7_token_overwrite (downloadUrl (initState 1) "a" "p") "a" "q").2 (by decide)⟩

/-- C8 counterexample: with track duration 10 s and progress 0 s, the armed
delay of the armed timer is `10 - 0 + 2 = 12` seconds, not `10 - 0`: `set_timer`
computes `seconds = duration - progress + 1` and sleeps `seconds + 1`. -/
theorem C8_counterexample :
    (setTimer 10 (some 0) ⟨none, []⟩).endTimer ≠ some (10 - 0) := by decide

/-- C8 (amended): arming the end-of-track timer first cancels (aborts) any
previously armed timer; the delay of the new timer is
`track_duration − current_progress + 2` seconds (progress defaulting to the
duration when unavailable), so it fires slightly *after* playback would
naturally finish; and one firing delivers exactly one `SongFinished`. -/
theorem C8_timer_semantics (d : Nat) (p : Option Nat) (t : TimerState) :
    (setTimer d p t).endTimer = some (timerDelay d p) ∧
    (∀ h, t.endTimer = some h → (setTimer d p t).aborted = h :: t.aborted) ∧
    (t.endTimer = none → (setTimer d p t).aborted = t.aborted) ∧
    (∀ pv, pv ≤ d → d + 2 < U64MOD → timerDelay d (some pv) = d - pv + 2) ∧
    timerMessages.length = 1 := by
  refine ⟨rfl, ?_, ?_, ?_, rfl⟩
  · intro h hh
    simp [setTimer, stopTimer, hh]
  · intro hh
    simp [setTimer, stopTimer, hh]
  · intro pv hpv hd
    simp only [timerDelay, timerSeconds, add64, wsub64, U64MOD,
      Option.getD_some] at *
    omega

theorem C8_timer_semantics_witness :
    (setTimer 10 (some 4) ⟨some 7, [3]⟩).endTimer =
      some (timerDelay 10 (some 4)) ∧
    (setTimer 10 (some 4) ⟨some 7, [3]⟩).aborted = 7 :: [3] ∧
    timerDelay 10 (some 4) = 10 - 4 + 2 ∧
    timerMessages.length = 1 :=
  have h := C8_timer_semantics 10 (some 4) ⟨some 7, [3]⟩
  ⟨h.1, h.2.1 7 rfl, h.2.2.2.1 4 (by decide) (by decide), h.2.2.2.2⟩

/-- C9: toggling shuffle on and then off restores the identity traversal
order, whatever permutation oracle the shuffle used: after the round trip
`ordered_items` is `0, 1, …, len-1` again and position `i` shows item `i`. -/
theorem C9_shuffle_round_trip {α : Type} (w : ListWidget α)
    (shuf1 shuf2 : List Nat → List Nat) (hw : w.shuffled = false) :
    (toggleShuffle shuf2 (toggleShuffle shuf1 w)).orderedItems =
      List.range w.items.length ∧
    (∀ i, i < w.items.length →
      getInd (toggleShuffle shuf2 (toggleShuffle shuf1 w)) i = w.items.get? i) := by
  have h1 : toggleShuffle shuf1 w =
      { w with orderedItems := shuf1 w.orderedItems, sel := none,
               shuffled := true, title := w.title ++ shuffleMarker } := by
    simp [toggleShuffle, hw]
  have h2 : toggleShuffle shuf2 (toggleShuffle shuf1 w) =
      { w with orderedItems := List.range w.items.length, sel := none,
               shuffled := false,
               title := (w.title ++
                 shuffleMarker).dropLast.dropLast.dropLast.dropLast } := by
    rw [h1]
    simp [toggleShuffle]
  refine ⟨by rw [h2], ?_⟩
  intro i hi
  rw [h2]
  simp [getInd, List.getElem?_range hi]

theorem C9_shuffle_round_trip_witness :
    (toggleShuffle id (toggleShuffle List.reverse
        (withItems [] ([10, 20, 30] : List Nat)))).orderedItems =
      List.range 3 ∧
    getInd (toggleShuffle id (toggleShuffle List.reverse
        (withItems [] ([10, 20, 30] : List Nat)))) 1 = some 20 :=
  have h := C9_shuffle_round_trip (withItems [] ([10, 20, 30] : List Nat))
    List.reverse id rfl
  ⟨h.1, by simpa using h.2 1 (by decide)⟩

/-- C10: `play_previous` computes `(ind - 1) % total_len` on `usize`. When
the current song is at position 0, the subtraction underflows: under checked
(debug) semantics it panics (`none`), and under wrapping (release)
semantics it yields `usize::MAX % total_len` — e.g. for a 3-track list that
is position 0, not the last track (position 2). -/
theorem C10_play_previous_underflow :
    (∀ len : Nat, playPreviousIndChecked (some 0) len = none) ∧
    (∀ len : Nat, 0 < len →
        playPreviousIndWrapping (some 0) len = some ((U64MOD - 1) % len)) ∧
    playPreviousIndWrapping (some 0) 3 = some 0 ∧
    playPreviousIndWrapping (some 0) 3 ≠ some (3 - 1) := by
  refine ⟨?_, ?_, by decide, by decide⟩
  · intro len
    by_cases h : len = 0 <;> simp [playPreviousIndChecked, h]
  · intro len hlen
    have h1 : wsub64 0 1 = U64MOD - 1 := by
      simp only [wsub64, U64MOD]
      omega
    simp [playPreviousIndWrapping, Nat.pos_iff_ne_zero.mp hlen, h1]

theorem C10_play_previous_underflow_witness :
    playPreviousIndChecked (some 0) 5 = none ∧
    playPreviousIndWrapping (some 0) 5 = some ((U64MOD - 1) % 5) :=
  ⟨C10_play_previous_underflow.1 5, C10_play_previous_underflow.2.1 5 (by decide)⟩

end ListTUI
